import Mathlib

/-!
Verification of the retrieval-and-routing pipeline in `src/main.py`
(LPU VertoSewa assistant).

The Python program is shallowly embedded: Python strings are Lean `String`s
(with `str.split()` modelled at the character-list level), the external
services (Gemini embedding, Gemini generation, Firestore, the wall clock,
and sklearn's `cosine_similarity` numeric kernel) are fields of an explicit
environment `Env`, and the process-wide mutable dictionary
`conversation_memory` is threaded as an association list `Mem`.
A Python exception raised by the embedding client is modelled as
`Except.error`; it propagates exactly where the Python exception would.
Similarity scores are modelled as rationals supplied by the environment's
score oracle, since the float arithmetic itself lives inside sklearn.
-/

namespace VertoSewa

/-! ## Chunker (`chunk_text`, mirroring Python `str.split()` and `" ".join`) -/

/-- Python `str.split()` with no argument, at the character level: split on
runs of whitespace, producing no empty words. Accumulator holds the current
word reversed. -/
def splitWordsAux : List Char → List Char → List (List Char)
  | [], acc => if acc = [] then [] else [acc.reverse]
  | c :: cs, acc =>
    if c.isWhitespace then
      if acc = [] then splitWordsAux cs [] else acc.reverse :: splitWordsAux cs []
    else
      splitWordsAux cs (c :: acc)

/-- Character-level word splitting of a string, as Python `text.split()`. -/
def splitWordsC (l : List Char) : List (List Char) := splitWordsAux l []

/-- The word list of a Python string under `str.split()`. -/
def pywords (text : String) : List String := (splitWordsC text.data).map String.mk

/-- Python `str.lower()`, character by character (the messages the program
compares against are ASCII). -/
def pyLower (s : String) : String := String.mk (s.data.map Char.toLower)

/-- Python `str.strip()`: remove leading and trailing whitespace. -/
def pyStrip (s : String) : String :=
  String.mk (((s.data.dropWhile Char.isWhitespace).reverse.dropWhile Char.isWhitespace).reverse)

/-- Python `" ".join(ws)` at the character level: single space between words. -/
def joinSpC : List (List Char) → List Char
  | [] => []
  | [w] => w
  | w :: ws => w ++ ' ' :: joinSpC ws

/-- Structural engine for `chunksOf`: `fuel` bounds the number of windows and
is supplied as the word-list length, which suffices whenever the window size
is positive. -/
def chunksOfAux (n : Nat) : Nat → List (List Char) → List (List (List Char))
  | _, [] => []
  | 0, _ :: _ => []
  | fuel + 1, w :: ws => ((w :: ws).take n) :: chunksOfAux n fuel ((w :: ws).drop n)

/-- Grouping of `range(0, len(words), chunk_size)` slices: consecutive windows
of `n` words, last window possibly shorter. `n = 0` never occurs in the
program (Python `range` with step 0 raises); it is mapped to `[]`. -/
def chunksOf (n : Nat) (l : List (List Char)) : List (List (List Char)) :=
  if n = 0 then [] else chunksOfAux n l.length l

/-- `chunk_text(text, chunk_size=350)` from `src/main.py`: split on whitespace,
group into consecutive `chunk_size`-word windows, join each window back with
single spaces. -/
def chunk_text (text : String) (chunk_size : Nat := 350) : List String :=
  (chunksOf chunk_size (splitWordsC text.data)).map (fun ws => String.mk (joinSpC ws))

/-! ## External world: embedding service, Firestore, generation, clock -/

/-- Embedding vectors; the numeric content is opaque to the pipeline. -/
abbrev Vec := List ℚ

/-- The one Python exception the pipeline can raise through the modelled code
path: the Gemini embedding call failing (service unreachable / malformed
response). -/
inductive PyErr where
  | embeddingUnavailable
deriving DecidableEq, Repr

/-- An embedded chunk record, the dict built in `load_admin_documents` /
`load_static_documents`. -/
structure Doc where
  source : String
  title : String
  text : String
  embedding : Vec
deriving DecidableEq, Repr

/-- A raw Firestore `lpu_content` document (the fields the code reads). -/
structure RawDoc where
  title : String
  textContent : String
deriving DecidableEq, Repr

/-- The external collaborators of `src/main.py`, made explicit.
`embed` returns `none` when the embedding call raises;
`sim` is sklearn's `cosine_similarity` numeric kernel as a score oracle;
`adminRaw` is the Firestore query result (ordered `createdAt` descending,
limit 150); `static_lpu` is the `STATIC_LPU` blob (`""` if the file is
missing); `genGeneral` / `genContextual` are the Gemini generation calls
(question / question-context-memory); `nowTime` and `nowDate` are the
`strftime` renderings of `datetime.now(Asia/Kolkata)`. -/
structure Env where
  embed : String → Option Vec
  sim : Vec → Vec → ℚ
  adminRaw : List RawDoc
  static_lpu : String
  genGeneral : String → String
  genContextual : String → String → String → String
  nowTime : String
  nowDate : String

/-- `embed_text` from `src/main.py`: delegate to the embedding service; a
service failure is a raised exception. -/
def embed_text (env : Env) (text : String) : Except PyErr Vec :=
  match env.embed text with
  | none => .error .embeddingUnavailable
  | some v => .ok v

/-- The document-building loop shared by `load_admin_documents` and
`load_static_documents`: embed each (title, chunk) pair in order and collect
the records; the first embedding failure propagates (the Python loops have no
try/except). -/
def embedChunks (env : Env) (source : String) : List (String × String) → Except PyErr (List Doc)
  | [] => .ok []
  | tc :: rest =>
    match env.embed tc.2 with
    | none => .error .embeddingUnavailable
    | some e =>
      match embedChunks env source rest with
      | .error er => .error er
      | .ok docs =>
        .ok ({ source := source, title := tc.1, text := tc.2, embedding := e } :: docs)

/-- `load_admin_documents`: chunk every Firestore document's `textContent` and
embed each chunk, preserving the newest-first document order. -/
def load_admin_documents (env : Env) : Except PyErr (List Doc) :=
  embedChunks env "Admin Dashboard"
    (env.adminRaw.flatMap (fun d => (chunk_text d.textContent).map (fun c => (d.title, c))))

/-- `load_static_documents`: chunk and embed the static `STATIC_LPU` blob. -/
def load_static_documents (env : Env) : Except PyErr (List Doc) :=
  embedChunks env "LPU Knowledge Base"
    ((chunk_text env.static_lpu).map (fun c => ("lpu_knowledge.txt", c)))

/-! ## Semantic search -/

/-- The descending-score ordering used to sort the scored list; ties are
resolved by keeping the original order (stability). -/
def scoreGE (a b : ℚ × Doc) : Prop := b.1 ≤ a.1

instance : DecidableRel scoreGE := fun a b => inferInstanceAs (Decidable (b.1 ≤ a.1))

/-- `semantic_search(query, documents, top_k=4, threshold=0.35)`: embed the
query (a failure propagates), keep documents whose cosine score meets the
threshold, sort descending by score, return the first `top_k`. Python
`list.sort(reverse=True)` is a stable sort under the descending-score total
preorder; a stable sort's output is unique, so it is modelled by stable
insertion sort under `scoreGE`. -/
def semantic_search (env : Env) (query : String) (documents : List Doc)
    (top_k : Nat := 4) (threshold : ℚ := 35/100) : Except PyErr (List Doc) :=
  match embed_text env query with
  | .error e => .error e
  | .ok query_vec =>
    let scored := documents.filterMap (fun doc =>
      let score := env.sim query_vec doc.embedding
      if threshold ≤ score then some (score, doc) else none)
    .ok (((scored.insertionSort scoreGE).take top_k).map (·.2))

/-! ## Session memory (`conversation_memory`, `update_memory`) -/

/-- One conversation turn. -/
structure Turn where
  role : String
  content : String
deriving DecidableEq, Repr

/-- The process-wide `conversation_memory` dict, as an association list from
session id to turn history. -/
abbrev Mem := List (String × List Turn)

/-- Dictionary lookup: `conversation_memory.get(sid)`. -/
def lookupMem : Mem → String → Option (List Turn)
  | [], _ => none
  | (k, v) :: rest, sid => if k = sid then some v else lookupMem rest sid

/-- Dictionary write: `conversation_memory[sid] = v`. -/
def setMem : Mem → String → List Turn → Mem
  | [], sid, v => [(sid, v)]
  | (k, w) :: rest, sid, v =>
    if k = sid then (k, v) :: rest else (k, w) :: setMem rest sid v

/-- The history a session currently has (empty if unseen), as read by
`conversation_memory.get(session_id, [])` and by `setdefault`. -/
def historyOf (m : Mem) (sid : String) : List Turn := (lookupMem m sid).getD []

/-- Python `l[-6:]` generalised: the last `n` elements of a list. -/
def lastN (n : Nat) (l : List α) : List α := l.drop (l.length - n)

/-- `update_memory(session_id, role, content)`: `setdefault(sid, []).append`
followed by truncation to the last 6 turns. -/
def update_memory (m : Mem) (sid role content : String) : Mem :=
  setMem m sid (lastN 6 (historyOf m sid ++ [{ role := role, content := content }]))

/-- A sequence of appends, applied left to right. -/
def appendAll (m : Mem) : List (String × Turn) → Mem
  | [] => m
  | op :: ops => appendAll (update_memory m op.1 op.2.role op.2.content) ops

/-! ## Fixed replies, time/date handling -/

/-- The fixed `welcome_message()` text. -/
def welcome_message : String :=
  "Hello 👋 Welcome to **LPU VertoSewa**.\n\n" ++
  "I’m an AI assistant for **Lovely Professional University (LPU)**.\n\n" ++
  "You can ask me about:\n" ++
  "• Academics, exams, attendance\n" ++
  "• Hostels, fees, discipline\n" ++
  "• UMS / RMS / DSW notices\n" ++
  "• General questions as well\n\n" ++
  "How can I help you today?"

/-- `handle_time_date(text)`: only the exact texts "time" / "time now" yield
the time reply, and only "date" / "today date" / "date today" yield the date
reply; everything else returns `None`. The clock strings come from the
environment. -/
def handle_time_date (env : Env) (text : String) : Option String :=
  if text = "time" ∨ text = "time now" then
    some ("⏰ " ++ env.nowTime ++ " (IST)")
  else if text = "date" ∨ text = "today date" ∨ text = "date today" then
    some ("📅 " ++ env.nowDate)
  else
    none

/-! ## Orchestrator (`process_message`, `chat_api`) -/

/-- Deduplication keeping the first occurrence of each element, standing in
for the Python set of source tags (whose iteration order is unspecified). -/
def dedupKeepFirst : List String → List String
  | [] => []
  | x :: xs => x :: (dedupKeepFirst xs).filter (fun y => y ≠ x)

/-- The reply, tagged by the branch of `process_message` / `chat_api` that
produced it. `invalid` is the fixed "Please enter a valid question." reply,
`welcome` the fixed `welcome_message()` text, `greeting` the fixed
"Hello 👋 How can I help you?" reply; the other constructors carry the
computed reply string. -/
inductive Reply where
  | invalid
  | welcome
  | greeting
  | timeDate (s : String)
  | contextual (answer : String)
  | general (answer : String)
deriving DecidableEq, Repr

/-- The reply string each `Reply` tag stands for. -/
def Reply.text : Reply → String
  | .invalid => "Please enter a valid question."
  | .welcome => welcome_message
  | .greeting => "Hello 👋 How can I help you?"
  | .timeDate s => s
  | .contextual s => s
  | .general s => s

/-- The greeting token list of step 2 of `process_message`. -/
def greetTokens : List String := ["hi", "hii", "hello", "hey", "hai"]

/-- `process_message(session_id, message)`: welcome-on-first-contact, exact
greeting match, exact time/date match, then document loading, semantic
search, and either contextual generation (non-empty retrieval, with a
Sources suffix and two memory appends) or the general-Gemini fallback.
Python set iteration order for the Sources lines is not specified; it is
modelled as first-occurrence order of the deduplicated tags. -/
def process_message (env : Env) (m : Mem) (session_id message : String) :
    Except PyErr (Reply × Mem) :=
  let text := pyStrip (pyLower message)
  if (lookupMem m session_id).isNone then
    let m1 := setMem m session_id []
    .ok (.welcome, update_memory m1 session_id "assistant" welcome_message)
  else if text ∈ greetTokens then
    .ok (.greeting, m)
  else match handle_time_date env text with
  | some td => .ok (.timeDate td, m)
  | none =>
    match load_admin_documents env with
    | .error e => .error e
    | .ok admin_docs =>
      match load_static_documents env with
      | .error e => .error e
      | .ok static_docs =>
        match semantic_search env message (admin_docs ++ static_docs) with
        | .error e => .error e
        | .ok relevant =>
          if relevant ≠ [] then
            let context := String.join (relevant.map (fun doc =>
              "\n[" ++ doc.source ++ " – " ++ doc.title ++ "]\n" ++ doc.text ++ "\n"))
            let sources := dedupKeepFirst
              (relevant.map (fun doc => doc.source ++ " (" ++ doc.title ++ ")"))
            let memory := String.intercalate "\n"
              ((historyOf m session_id).map (fun t => t.role ++ ": " ++ t.content))
            let answer := env.genContextual message context memory ++
              "\n\nSources:\n" ++ String.intercalate "\n" (sources.map (fun s => "- " ++ s))
            let m1 := update_memory m session_id "user" message
            let m2 := update_memory m1 session_id "assistant" answer
            .ok (.contextual answer, m2)
          else
            let answer := env.genGeneral message
            let m1 := update_memory m session_id "user" message
            let m2 := update_memory m1 session_id "assistant" answer
            .ok (.general answer, m2)

/-- The `POST /chat` handler `chat_api`: read `message` (default `""`) and
`session_id` (default `"default"`) from the body, strip the message, reject
if empty, otherwise hand off to `process_message`. -/
def chat_api (env : Env) (m : Mem) (body_message body_session : Option String) :
    Except PyErr (Reply × Mem) :=
  let message := pyStrip (body_message.getD "")
  let session_id := body_session.getD "default"
  if message = "" then
    .ok (.invalid, m)
  else
    process_message env m session_id message

/-- The classification the branch chain of `process_message` implements for an
already-seen session, on the lower-cased trimmed text. -/
inductive Category where
  | greeting
  | timeQuery
  | dateQuery
  | retrieval
deriving DecidableEq, Repr

/-- The message categories in the priority order of the branch chain: exact
greeting tokens, exact time texts, exact date texts, then the retrieval
pipeline for everything else. -/
def classify (text : String) : Category :=
  if text ∈ greetTokens then .greeting
  else if text = "time" ∨ text = "time now" then .timeQuery
  else if text = "date" ∨ text = "today date" ∨ text = "date today" then .dateQuery
  else .retrieval

/-! ## Auxiliary instances and basic lemmas -/

instance {ε : Type u} {α : Type v} [DecidableEq ε] [DecidableEq α] :
    DecidableEq (Except ε α) := fun a b =>
  match a, b with
  | .error x, .error y =>
    if h : x = y then .isTrue (by rw [h]) else .isFalse (fun he => h (Except.error.inj he))
  | .error _, .ok _ => .isFalse (fun he => Except.noConfusion he)
  | .ok _, .error _ => .isFalse (fun he => Except.noConfusion he)
  | .ok x, .ok y =>
    if h : x = y then .isTrue (by rw [h]) else .isFalse (fun he => h (Except.ok.inj he))

theorem lookupMem_setMem_self (m : Mem) (sid : String) (v : List Turn) :
    lookupMem (setMem m sid v) sid = some v := by
  induction m with
  | nil => simp [setMem, lookupMem]
  | cons kv rest ih =>
    by_cases h : kv.1 = sid
    · simp [setMem, lookupMem, h]
    · simp [setMem, lookupMem, h, ih]

theorem lookupMem_setMem_other (m : Mem) (sid sid' : String) (v : List Turn)
    (h : sid' ≠ sid) : lookupMem (setMem m sid v) sid' = lookupMem m sid' := by
  have hne : sid ≠ sid' := fun he => h he.symm
  induction m with
  | nil => simp [setMem, lookupMem, hne]
  | cons kv rest ih =>
    by_cases hk : kv.1 = sid
    · rcases kv with ⟨k, w⟩
      simp only at hk
      subst hk
      simp [setMem, lookupMem, hne]
    · rcases kv with ⟨k, w⟩
      simp only at hk
      simp [setMem, lookupMem, hk, ih]

theorem historyOf_update_self (m : Mem) (sid role content : String) :
    historyOf (update_memory m sid role content) sid =
      lastN 6 (historyOf m sid ++ [{ role := role, content := content }]) := by
  simp [update_memory, historyOf, lookupMem_setMem_self]

theorem historyOf_update_other (m : Mem) (sid sid' role content : String) (h : sid' ≠ sid) :
    historyOf (update_memory m sid role content) sid' = historyOf m sid' := by
  simp [update_memory, historyOf, lookupMem_setMem_other _ _ _ _ h]

theorem length_lastN (n : Nat) (l : List α) : (lastN n l).length = min n l.length := by
  rw [lastN, List.length_drop]
  omega

theorem length_lastN_le (n : Nat) (l : List α) : (lastN n l).length ≤ n := by
  rw [length_lastN]
  omega

theorem lastN_of_length_le {n : Nat} {l : List α} (h : l.length ≤ n) : lastN n l = l := by
  have hz : l.length - n = 0 := by omega
  rw [lastN, hz, List.drop_zero]

theorem lastN_eq_reverse_take (n : Nat) (l : List α) :
    lastN n l = (l.reverse.take n).reverse := by
  rw [lastN, List.reverse_take, List.reverse_reverse, List.length_reverse]

theorem take_append_take (n : Nat) (x y : List α) :
    List.take n (x ++ List.take n y) = List.take n (x ++ y) := by
  rw [List.take_append_eq_append_take, List.take_append_eq_append_take, List.take_take]
  have hmin : (n - x.length) ⊓ n = n - x.length := by omega
  rw [hmin]

theorem lastN_append_lastN (n : Nat) (a b : List α) :
    lastN n (lastN n a ++ b) = lastN n (a ++ b) := by
  rw [lastN_eq_reverse_take n a, lastN_eq_reverse_take, lastN_eq_reverse_take n (a ++ b)]
  rw [List.reverse_append, List.reverse_reverse, List.reverse_append]
  rw [take_append_take]

/-- The turns a list of append operations contributes to one session. -/
def opsFor (sid : String) (ops : List (String × Turn)) : List Turn :=
  (ops.filter (fun p => p.1 = sid)).map (·.2)

theorem historyOf_appendAll (ops : List (String × Turn)) (m : Mem)
    (hm : ∀ sid, (historyOf m sid).length ≤ 6) (sid : String) :
    historyOf (appendAll m ops) sid = lastN 6 (historyOf m sid ++ opsFor sid ops) := by
  induction ops generalizing m with
  | nil =>
    simp [appendAll, opsFor, lastN_of_length_le (hm sid)]
  | cons op ops ih =>
    have hm' : ∀ s, (historyOf (update_memory m op.1 op.2.role op.2.content) s).length ≤ 6 := by
      intro s
      by_cases hs : s = op.1
      · rw [hs, historyOf_update_self]; exact length_lastN_le _ _
      · rw [historyOf_update_other _ _ _ _ _ hs]; exact hm s
    rw [appendAll, ih _ hm']
    by_cases hs : sid = op.1
    · rw [hs, historyOf_update_self]
      have hops : opsFor op.1 (op :: ops) = op.2 :: opsFor op.1 ops := by
        simp [opsFor]
      rw [hops, lastN_append_lastN, List.append_assoc]
      simp
    · have hne : op.1 ≠ sid := fun he => hs he.symm
      rw [historyOf_update_other _ _ _ _ _ hs]
      have hops : opsFor sid (op :: ops) = opsFor sid ops := by
        simp [opsFor, hne]
      rw [hops]

/-- C5: starting from the empty `conversation_memory`, any sequence of appends
leaves every session with at most 6 turns, the retained turns are exactly the
most recent 6 appended to that session in order (FIFO eviction), and each
single append replaces the session's history by the last 6 turns of the old
history extended with the new turn. -/
theorem memory_bound_fifo (ops : List (String × Turn)) (sid : String) :
    (historyOf (appendAll [] ops) sid).length ≤ 6 ∧
    historyOf (appendAll [] ops) sid = lastN 6 (opsFor sid ops) ∧
    (∀ (m : Mem) (role content : String),
      historyOf (update_memory m sid role content) sid =
        lastN 6 (historyOf m sid ++ [{ role := role, content := content }]) ∧
      (historyOf (update_memory m sid role content) sid).length ≤ 6) := by
  have hempty : ∀ s, (historyOf ([] : Mem) s).length ≤ 6 := by
    intro s; simp [historyOf, lookupMem]
  have hmain := historyOf_appendAll ops [] hempty sid
  have hnil : historyOf ([] : Mem) sid = [] := by simp [historyOf, lookupMem]
  rw [hnil, List.nil_append] at hmain
  refine ⟨?_, hmain, ?_⟩
  · rw [hmain]; exact length_lastN_le _ _
  · intro m role content
    exact ⟨historyOf_update_self m sid role content, by
      rw [historyOf_update_self]; exact length_lastN_le _ _⟩

/-! ## Chunker lemmas (C9) -/

theorem splitWordsAux_sound (l : List Char) :
    ∀ (acc : List Char), (∀ c ∈ acc, c.isWhitespace = false) →
      ∀ w ∈ splitWordsAux l acc, w ≠ [] ∧ ∀ c ∈ w, c.isWhitespace = false := by
  induction l with
  | nil =>
    intro acc hacc w hw
    by_cases h : acc = []
    · simp [splitWordsAux, h] at hw
    · simp only [splitWordsAux, if_neg h, List.mem_singleton] at hw
      subst hw
      refine ⟨by simpa [List.reverse_eq_nil_iff] using h, ?_⟩
      intro c hc
      exact hacc c (List.mem_reverse.mp hc)
  | cons c cs ih =>
    intro acc hacc w hw
    by_cases hws : c.isWhitespace
    · by_cases h : acc = []
      · simp only [splitWordsAux, if_pos hws, if_pos h] at hw
        exact ih [] (by simp) w hw
      · simp only [splitWordsAux, if_pos hws, if_neg h, List.mem_cons] at hw
        rcases hw with hw | hw
        · subst hw
          refine ⟨by simpa [List.reverse_eq_nil_iff] using h, ?_⟩
          intro c' hc'
          exact hacc c' (List.mem_reverse.mp hc')
        · exact ih [] (by simp) w hw
    · simp only [splitWordsAux, if_neg hws] at hw
      refine ih (c :: acc) ?_ w hw
      intro c' hc'
      rcases List.mem_cons.mp hc' with h' | h'
      · rw [h']; exact Bool.eq_false_iff.mpr hws
      · exact hacc c' h'

theorem splitWordsAux_append (w : List Char) (hw : ∀ c ∈ w, c.isWhitespace = false) :
    ∀ (rest acc : List Char),
      splitWordsAux (w ++ rest) acc = splitWordsAux rest (w.reverse ++ acc) := by
  induction w with
  | nil => intro rest acc; simp
  | cons c w ih =>
    intro rest acc
    have hc : c.isWhitespace = false := hw c (by simp)
    have hw' : ∀ c' ∈ w, c'.isWhitespace = false := fun c' h => hw c' (by simp [h])
    rw [List.cons_append]
    show splitWordsAux (c :: (w ++ rest)) acc = _
    simp only [splitWordsAux, hc, Bool.false_eq_true, if_false]
    rw [ih hw' rest (c :: acc)]
    simp [List.append_assoc]

theorem splitWordsC_joinSpC (ws : List (List Char))
    (h : ∀ w ∈ ws, w ≠ [] ∧ ∀ c ∈ w, c.isWhitespace = false) :
    splitWordsC (joinSpC ws) = ws := by
  induction ws with
  | nil => rfl
  | cons w ws ih =>
    rcases h w (by simp) with ⟨hne, hchar⟩
    have hrevne : w.reverse ≠ [] := by simpa [List.reverse_eq_nil_iff] using hne
    cases ws with
    | nil =>
      show splitWordsC (joinSpC [w]) = [w]
      rw [show joinSpC [w] = w from rfl, splitWordsC]
      have hs := splitWordsAux_append w hchar [] []
      rw [List.append_nil] at hs
      rw [hs]
      simp only [splitWordsAux, List.append_nil, if_neg hrevne, List.reverse_reverse]
    | cons w' ws' =>
      show splitWordsC (w ++ ' ' :: joinSpC (w' :: ws')) = w :: w' :: ws'
      rw [splitWordsC]
      have hs := splitWordsAux_append w hchar (' ' :: joinSpC (w' :: ws')) []
      rw [List.append_nil] at hs
      rw [hs]
      simp only [splitWordsAux, if_pos (by decide : (' ').isWhitespace = true),
        if_neg hrevne, List.reverse_reverse]
      have ih' := ih (fun x hx => h x (by simp [hx]))
      rw [splitWordsC] at ih'
      rw [ih']

theorem chunksOfAux_flatten (n : Nat) (hn : n ≠ 0) :
    ∀ (fuel : Nat) (l : List (List Char)), l.length ≤ fuel →
      (chunksOfAux n fuel l).flatten = l := by
  intro fuel
  induction fuel with
  | zero =>
    intro l hl
    have : l = [] := List.length_eq_zero.mp (Nat.le_zero.mp hl)
    subst this; rfl
  | succ fuel ih =>
    intro l hl
    cases l with
    | nil => rfl
    | cons w ws =>
      rw [chunksOfAux, List.flatten_cons, ih _ ?_]
      · exact List.take_append_drop n (w :: ws)
      · rw [List.length_drop]
        simp only [List.length_cons] at hl ⊢
        omega

theorem chunk_text_reconstructs (n : Nat) (hn : n ≠ 0) (text : String) :
    (chunk_text text n).flatMap pywords = pywords text := by
  rw [chunk_text, pywords]
  have hWprops : ∀ w ∈ splitWordsC text.data, w ≠ [] ∧ ∀ c ∈ w, c.isWhitespace = false :=
    fun w hw => splitWordsAux_sound text.data [] (by simp) w hw
  have hflat : (chunksOf n (splitWordsC text.data)).flatten = splitWordsC text.data := by
    rw [chunksOf, if_neg hn]
    exact chunksOfAux_flatten n hn _ _ le_rfl
  have hgroup : ∀ g ∈ chunksOf n (splitWordsC text.data), splitWordsC (joinSpC g) = g := by
    intro g hg
    apply splitWordsC_joinSpC
    intro w hw
    exact hWprops w (by rw [← hflat]; exact List.mem_flatten.mpr ⟨g, hg, hw⟩)
  rw [List.flatMap_def, List.map_map]
  have hcomp : (chunksOf n (splitWordsC text.data)).map (pywords ∘ fun ws => String.mk (joinSpC ws)) =
      (chunksOf n (splitWordsC text.data)).map (fun g => g.map String.mk) := by
    apply List.map_congr_left
    intro g hg
    show pywords (String.mk (joinSpC g)) = g.map String.mk
    rw [pywords, show (String.mk (joinSpC g)).data = joinSpC g from rfl, hgroup g hg]
  rw [hcomp, show (fun g : List (List Char) => g.map String.mk) = List.map String.mk from rfl,
    ← List.map_flatten, hflat]

/-- C9: chunking is deterministic (a pure function of its input), flattening
the chunk texts back into words recovers the original word sequence of the
text, and the empty text yields no chunks. -/
theorem chunk_determinism_reconstruction (text : String) (n : Nat) (hn : 0 < n) :
    chunk_text text n = chunk_text text n ∧
    (chunk_text text n).flatMap pywords = pywords text ∧
    chunk_text "" n = [] := by
  refine ⟨rfl, chunk_text_reconstructs n (by omega) text, ?_⟩
  rw [chunk_text]
  rw [show splitWordsC "".data = [] from rfl]
  rcases Nat.eq_zero_or_pos n with h | h
  · simp [chunksOf, h]
  · rw [chunksOf, if_neg (by omega)]
    rfl

/-- Concrete instantiation of `chunk_determinism_reconstruction`. -/
theorem chunk_determinism_reconstruction_witness :
    0 < 2 ∧
    (chunk_text "alpha beta gamma" 2 = chunk_text "alpha beta gamma" 2 ∧
      (chunk_text "alpha beta gamma" 2).flatMap pywords = pywords "alpha beta gamma" ∧
      chunk_text "" 2 = []) :=
  ⟨by decide, chunk_determinism_reconstruction "alpha beta gamma" 2 (by decide)⟩

/-! ## Orchestrator lemmas -/

set_option maxRecDepth 10000

theorem lookupMem_setMem_ne_none (m : Mem) (sid sid' : String) (v : List Turn)
    (h : lookupMem m sid ≠ none) : lookupMem (setMem m sid' v) sid ≠ none := by
  by_cases hs : sid = sid'
  · rw [hs, lookupMem_setMem_self]
    exact Option.some_ne_none v
  · rw [lookupMem_setMem_other _ _ _ _ hs]
    exact h

theorem lookupMem_update_ne_none (m : Mem) (sid sid' role content : String)
    (h : lookupMem m sid ≠ none) :
    lookupMem (update_memory m sid' role content) sid ≠ none := by
  rw [update_memory]
  exact lookupMem_setMem_ne_none _ _ _ _ h

theorem historyOf_setMem_nil_bound (m : Mem) (sid sid' : String)
    (hb : (historyOf m sid).length ≤ 6) :
    (historyOf (setMem m sid' []) sid).length ≤ 6 := by
  by_cases hs : sid = sid'
  · rw [hs]
    simp [historyOf, lookupMem_setMem_self]
  · rw [historyOf, lookupMem_setMem_other _ _ _ _ hs]
    exact hb

theorem historyOf_update_bound (m : Mem) (sid sid' role content : String)
    (hb : (historyOf m sid).length ≤ 6) :
    (historyOf (update_memory m sid' role content) sid).length ≤ 6 := by
  by_cases hs : sid = sid'
  · rw [hs, historyOf_update_self]
    exact length_lastN_le _ _
  · rw [historyOf_update_other _ _ _ _ _ hs]
    exact hb

/-- Exhaustive description of a successful `process_message` call for an
already-seen session: exactly one of the greeting, time/date or retrieval
branches fires, following the priority order of the code. -/
theorem process_message_branches (env : Env) (m : Mem) (sid msg : String)
    (hseen : lookupMem m sid ≠ none) (r : Reply) (m2 : Mem)
    (h : process_message env m sid msg = .ok (r, m2)) :
    (pyStrip (pyLower msg) ∈ greetTokens ∧ r = .greeting ∧ m2 = m) ∨
    (pyStrip (pyLower msg) ∉ greetTokens ∧
      ∃ td, handle_time_date env (pyStrip (pyLower msg)) = some td ∧
        r = .timeDate td ∧ m2 = m) ∨
    (pyStrip (pyLower msg) ∉ greetTokens ∧
      handle_time_date env (pyStrip (pyLower msg)) = none ∧
      ((∃ a, r = .contextual a ∧
          m2 = update_memory (update_memory m sid "user" msg) sid "assistant" a) ∨
       (∃ a, r = .general a ∧
          m2 = update_memory (update_memory m sid "user" msg) sid "assistant" a))) := by
  rw [process_message] at h
  rw [if_neg (by simp [Option.isNone_iff_eq_none, hseen])] at h
  by_cases hg : pyStrip (pyLower msg) ∈ greetTokens
  · rw [if_pos hg] at h
    simp only [Except.ok.injEq, Prod.mk.injEq] at h
    exact Or.inl ⟨hg, h.1.symm, h.2.symm⟩
  · rw [if_neg hg] at h
    split at h
    · rename_i td htd
      simp only [Except.ok.injEq, Prod.mk.injEq] at h
      exact Or.inr (Or.inl ⟨hg, td, htd, h.1.symm, h.2.symm⟩)
    · rename_i htd
      refine Or.inr (Or.inr ⟨hg, htd, ?_⟩)
      split at h
      · simp at h
      · split at h
        · simp at h
        · split at h
          · simp at h
          · split at h
            · simp only [Except.ok.injEq, Prod.mk.injEq] at h
              exact Or.inl ⟨_, h.1.symm, h.2.symm⟩
            · simp only [Except.ok.injEq, Prod.mk.injEq] at h
              exact Or.inr ⟨_, h.1.symm, h.2.symm⟩

theorem process_message_preserves_seen (env : Env) (m : Mem) (sid sid2 msg : String)
    (hseen : lookupMem m sid ≠ none) (r : Reply) (m2 : Mem)
    (h : process_message env m sid2 msg = .ok (r, m2)) : lookupMem m2 sid ≠ none := by
  by_cases hu : lookupMem m sid2 = none
  · rw [process_message] at h
    rw [if_pos (by simp [Option.isNone_iff_eq_none, hu])] at h
    simp only [Except.ok.injEq, Prod.mk.injEq] at h
    rw [← h.2]
    exact lookupMem_update_ne_none _ _ _ _ _ (lookupMem_setMem_ne_none _ _ _ _ hseen)
  · rcases process_message_branches env m sid2 msg hu r m2 h with
      ⟨_, _, hm⟩ | ⟨_, _, _, _, hm⟩ | ⟨_, _, ⟨a, _, hm⟩ | ⟨a, _, hm⟩⟩
    · rw [hm]; exact hseen
    · rw [hm]; exact hseen
    · rw [hm]
      exact lookupMem_update_ne_none _ _ _ _ _ (lookupMem_update_ne_none _ _ _ _ _ hseen)
    · rw [hm]
      exact lookupMem_update_ne_none _ _ _ _ _ (lookupMem_update_ne_none _ _ _ _ _ hseen)

theorem process_message_history_bound (env : Env) (m : Mem) (sid2 msg : String) (r : Reply)
    (m2 : Mem) (h : process_message env m sid2 msg = .ok (r, m2)) (sid : String)
    (hb : (historyOf m sid).length ≤ 6) : (historyOf m2 sid).length ≤ 6 := by
  by_cases hu : lookupMem m sid2 = none
  · rw [process_message] at h
    rw [if_pos (by simp [Option.isNone_iff_eq_none, hu])] at h
    simp only [Except.ok.injEq, Prod.mk.injEq] at h
    rw [← h.2]
    exact historyOf_update_bound _ _ _ _ _ (historyOf_setMem_nil_bound _ _ _ hb)
  · rcases process_message_branches env m sid2 msg hu r m2 h with
      ⟨_, _, hm⟩ | ⟨_, _, _, _, hm⟩ | ⟨_, _, ⟨a, _, hm⟩ | ⟨a, _, hm⟩⟩
    · rw [hm]; exact hb
    · rw [hm]; exact hb
    · rw [hm]
      exact historyOf_update_bound _ _ _ _ _ (historyOf_update_bound _ _ _ _ _ hb)
    · rw [hm]
      exact historyOf_update_bound _ _ _ _ _ (historyOf_update_bound _ _ _ _ _ hb)

/-! ## Concrete test environments -/

/-- An environment whose embedding service works but whose corpus is empty:
no Firestore documents and an empty static blob. Generation answers are
tagged so the provenance of a reply is visible in the output. -/
def envEmptyCorpus : Env where
  embed := fun _ => some [1]
  sim := fun _ _ => 0
  adminRaw := []
  static_lpu := ""
  genGeneral := fun q => "GENERAL: " ++ q
  genContextual := fun q _ _ => "CONTEXT: " ++ q
  nowTime := "10:05 AM"
  nowDate := "12 October 2026"

/-- An environment whose embedding service is down: every embedding call
raises. -/
def envNoEmbed : Env where
  embed := fun _ => none
  sim := fun _ _ => 0
  adminRaw := []
  static_lpu := ""
  genGeneral := fun q => "GENERAL: " ++ q
  genContextual := fun q _ _ => "CONTEXT: " ++ q
  nowTime := "10:05 AM"
  nowDate := "12 October 2026"

/-- A memory state in which session "s1" has already received its welcome. -/
def memSeen : Mem := [("s1", [{ role := "assistant", content := welcome_message }])]

/-- A memory state in which the shared session "default" has already received
its welcome. -/
def memDefaultSeen : Mem :=
  [("default", [{ role := "assistant", content := welcome_message }])]

/-! ## C6: welcome exactly once -/

/-- C6: the first handled message of an unseen session returns the fixed
welcome reply, without consulting any external collaborator (the result does
not depend on the environment), and marks the session seen; a session once
seen never yields the welcome reply again, and stays seen across any later
call for any session. -/
theorem welcome_once (env env' : Env) (m mseen : Mem) (sid msg msg2 : String)
    (hnew : lookupMem m sid = none) (hseen : lookupMem mseen sid ≠ none) :
    (process_message env m sid msg =
      .ok (.welcome, update_memory (setMem m sid []) sid "assistant" welcome_message)) ∧
    (process_message env m sid msg = process_message env' m sid msg) ∧
    (∀ r m2, process_message env m sid msg = .ok (r, m2) → lookupMem m2 sid ≠ none) ∧
    (∀ r m2, process_message env mseen sid msg2 = .ok (r, m2) → r ≠ .welcome) ∧
    (∀ sid2 msg3 r m2, process_message env mseen sid2 msg3 = .ok (r, m2) →
      lookupMem m2 sid ≠ none) := by
  have hfirst : process_message env m sid msg =
      .ok (.welcome, update_memory (setMem m sid []) sid "assistant" welcome_message) := by
    rw [process_message]
    rw [if_pos (by simp [Option.isNone_iff_eq_none, hnew])]
  refine ⟨hfirst, ?_, ?_, ?_, ?_⟩
  · rw [hfirst]
    rw [process_message, if_pos (by simp [Option.isNone_iff_eq_none, hnew])]
  · intro r m2 h
    rw [hfirst] at h
    simp only [Except.ok.injEq, Prod.mk.injEq] at h
    rw [← h.2]
    have hbase : lookupMem (setMem m sid []) sid ≠ none := by
      rw [lookupMem_setMem_self]; simp
    exact lookupMem_update_ne_none _ _ _ _ _ hbase
  · intro r m2 h
    rcases process_message_branches env mseen sid msg2 hseen r m2 h with
      ⟨_, hr, _⟩ | ⟨_, _, _, hr, _⟩ | ⟨_, _, ⟨a, hr, _⟩ | ⟨a, hr, _⟩⟩ <;>
      rw [hr] <;> intro hc <;> exact Reply.noConfusion hc
  · intro sid2 msg3 r m2 h
    exact process_message_preserves_seen env mseen sid sid2 msg3 hseen r m2 h

/-- Concrete instantiation of `welcome_once`: a fresh session gets the
welcome text, and the seen state `memSeen` satisfies the premises. -/
theorem welcome_once_witness :
    (lookupMem ([] : Mem) "s1" = none ∧ lookupMem memSeen "s1" ≠ none) ∧
    process_message envEmptyCorpus [] "s1" "hello" =
      .ok (.welcome, update_memory (setMem [] "s1" []) "s1" "assistant" welcome_message) :=
  ⟨⟨rfl, by decide⟩,
    (welcome_once envEmptyCorpus envNoEmbed [] memSeen "s1" "hello" "hi" rfl
      (by decide)).1⟩

/-! ## C7: empty-input rejection -/

/-- C7: a message that strips to the empty string is rejected at the API
boundary with the fixed "Please enter a valid question." reply; the memory
state is returned unchanged and no external collaborator is consulted (the
outcome does not depend on the environment). -/
theorem empty_input_rejected (env env' : Env) (m : Mem) (bm bs : Option String)
    (h : pyStrip (bm.getD "") = "") :
    chat_api env m bm bs = .ok (.invalid, m) ∧
    chat_api env m bm bs = chat_api env' m bm bs := by
  constructor
  · simp [chat_api, h]
  · simp [chat_api, h]

/-- Concrete instantiation of `empty_input_rejected` at a whitespace-only
message. -/
theorem empty_input_rejected_witness :
    pyStrip ((some "   ").getD "") = "" ∧
    (chat_api envEmptyCorpus memSeen (some "   ") none = .ok (.invalid, memSeen) ∧
     chat_api envEmptyCorpus memSeen (some "   ") none =
       chat_api envNoEmbed memSeen (some "   ") none) :=
  ⟨by decide,
    empty_input_rejected envEmptyCorpus envNoEmbed memSeen (some "   ") none (by decide)⟩

/-! ## C10: omitted session\_id means the shared "default" session -/

/-- C10: a /chat request whose body omits session\_id is handled under the
single shared session id "default": it behaves exactly as a request that
names "default" explicitly, so all such requests share one welcome-once flag
(the first one with "default" unseen gets the welcome, later ones never do)
and one 6-turn-bounded history. -/
theorem default_session_shared (env : Env) (m mseen : Mem) (bm : Option String)
    (hnew : lookupMem m "default" = none)
    (hseen : lookupMem mseen "default" ≠ none)
    (hmsg : pyStrip (bm.getD "") ≠ "") :
    chat_api env m bm none = chat_api env m bm (some "default") ∧
    chat_api env m bm none =
      .ok (.welcome, update_memory (setMem m "default" []) "default" "assistant"
        welcome_message) ∧
    (∀ r m2, chat_api env mseen bm none = .ok (r, m2) → r ≠ .welcome) ∧
    (∀ r m2 sid, chat_api env m bm none = .ok (r, m2) →
      (historyOf m sid).length ≤ 6 → (historyOf m2 sid).length ≤ 6) := by
  have hapi : ∀ m' : Mem, chat_api env m' bm none =
      process_message env m' "default" (pyStrip (bm.getD "")) := by
    intro m'
    rw [chat_api]
    simp only [if_neg hmsg, Option.getD_none]
  refine ⟨?_, ?_, ?_, ?_⟩
  · rw [hapi, chat_api]
    simp only [if_neg hmsg, Option.getD_some]
  · rw [hapi, process_message]
    rw [if_pos (by simp [Option.isNone_iff_eq_none, hnew])]
  · intro r m2 h
    rw [hapi] at h
    rcases process_message_branches env mseen "default" _ hseen r m2 h with
      ⟨_, hr, _⟩ | ⟨_, _, _, hr, _⟩ | ⟨_, _, ⟨a, hr, _⟩ | ⟨a, hr, _⟩⟩ <;>
      rw [hr] <;> intro hc <;> exact Reply.noConfusion hc
  · intro r m2 sid h hb
    rw [hapi] at h
    exact process_message_history_bound env m "default" _ r m2 h sid hb

/-- Concrete instantiation of `default_session_shared`: an omitted session id
resolves to "default", whose first request is welcomed. -/
theorem default_session_shared_witness :
    (lookupMem ([] : Mem) "default" = none ∧
     lookupMem memDefaultSeen "default" ≠ none ∧
     pyStrip ((some "what are lpu fees").getD "") ≠ "") ∧
    (chat_api envEmptyCorpus [] (some "what are lpu fees") none =
      chat_api envEmptyCorpus [] (some "what are lpu fees") (some "default") ∧
     chat_api envEmptyCorpus [] (some "what are lpu fees") none =
      .ok (.welcome, update_memory (setMem [] "default" []) "default" "assistant"
        welcome_message)) :=
  ⟨⟨rfl, by decide, by decide⟩,
    ⟨(default_session_shared envEmptyCorpus [] memDefaultSeen (some "what are lpu fees")
        rfl (by decide) (by decide)).1,
     (default_session_shared envEmptyCorpus [] memDefaultSeen (some "what are lpu fees")
        rfl (by decide) (by decide)).2.1⟩⟩

/-! ## Branch helpers for the seen-session claims -/

theorem process_message_seen_greet (env : Env) (m : Mem) (sid msg : String)
    (hseen : lookupMem m sid ≠ none) (hg : pyStrip (pyLower msg) ∈ greetTokens) :
    process_message env m sid msg = .ok (.greeting, m) := by
  rw [process_message, if_neg (by simp [Option.isNone_iff_eq_none, hseen]), if_pos hg]

theorem process_message_seen_td (env : Env) (m : Mem) (sid msg td : String)
    (hseen : lookupMem m sid ≠ none) (hg : pyStrip (pyLower msg) ∉ greetTokens)
    (htd : handle_time_date env (pyStrip (pyLower msg)) = some td) :
    process_message env m sid msg = .ok (.timeDate td, m) := by
  rw [process_message, if_neg (by simp [Option.isNone_iff_eq_none, hseen]), if_neg hg, htd]

theorem handle_time_date_time (env : Env) (text : String)
    (h : text = "time" ∨ text = "time now") :
    handle_time_date env text = some ("⏰ " ++ env.nowTime ++ " (IST)") := by
  rw [handle_time_date, if_pos h]

theorem handle_time_date_date (env : Env) (text : String)
    (h : text = "date" ∨ text = "today date" ∨ text = "date today") :
    handle_time_date env text = some ("📅 " ++ env.nowDate) := by
  have hnt : ¬(text = "time" ∨ text = "time now") := by
    rcases h with h | h | h <;> rw [h] <;> decide
  rw [handle_time_date, if_neg hnt, if_pos h]

theorem handle_time_date_none (env : Env) (text : String)
    (h1 : ¬(text = "time" ∨ text = "time now"))
    (h2 : ¬(text = "date" ∨ text = "today date" ∨ text = "date today")) :
    handle_time_date env text = none := by
  rw [handle_time_date, if_neg h1, if_neg h2]

theorem classify_eq_greeting (text : String) :
    classify text = .greeting ↔ text ∈ greetTokens := by
  rw [classify]
  split_ifs with h1 h2 h3 <;> simp_all

theorem classify_eq_timeQuery (text : String) :
    classify text = .timeQuery ↔
      text ∉ greetTokens ∧ (text = "time" ∨ text = "time now") := by
  rw [classify]
  split_ifs with h1 h2 h3 <;> simp_all

theorem classify_eq_dateQuery (text : String) :
    classify text = .dateQuery ↔
      text ∉ greetTokens ∧ ¬(text = "time" ∨ text = "time now") ∧
        (text = "date" ∨ text = "today date" ∨ text = "date today") := by
  rw [classify]
  split_ifs with h1 h2 h3 <;> simp_all

theorem classify_eq_retrieval (text : String) :
    classify text = .retrieval ↔
      text ∉ greetTokens ∧ ¬(text = "time" ∨ text = "time now") ∧
        ¬(text = "date" ∨ text = "today date" ∨ text = "date today") := by
  rw [classify]
  split_ifs with h1 h2 h3 <;> simp_all

/-! ## C2: classification exclusivity and priority -/

/-- C2 amended: the branch chain selects exactly one category per message, in
the fixed priority order (greeting before time/date before retrieval), but
the Greeting category requires the lower-cased trimmed text to equal one of
the five greeting tokens exactly; a message that merely starts with a
greeting token, such as "hello, what are LPU fees", falls through to the
retrieval pipeline and does not receive the fixed greeting reply. -/
theorem classification_exclusive_priority (env : Env) (m : Mem) (sid msg : String)
    (hseen : lookupMem m sid ≠ none) :
    (∃! c : Category, classify (pyStrip (pyLower msg)) = c) ∧
    (pyStrip (pyLower msg) ∈ greetTokens →
      classify (pyStrip (pyLower msg)) = .greeting ∧
      process_message env m sid msg = .ok (.greeting, m)) ∧
    (classify (pyStrip (pyLower msg)) = .timeQuery →
      process_message env m sid msg =
        .ok (.timeDate ("⏰ " ++ env.nowTime ++ " (IST)"), m)) ∧
    (classify (pyStrip (pyLower msg)) = .dateQuery →
      process_message env m sid msg = .ok (.timeDate ("📅 " ++ env.nowDate), m)) ∧
    (classify (pyStrip (pyLower msg)) = .retrieval →
      ∀ r m2, process_message env m sid msg = .ok (r, m2) →
        r ≠ .greeting ∧ r ≠ .welcome ∧ ∀ s, r ≠ .timeDate s) ∧
    classify (pyStrip (pyLower "hello, what are LPU fees")) = .retrieval := by
  refine ⟨⟨classify (pyStrip (pyLower msg)), rfl, fun c hc => hc.symm⟩, ?_, ?_, ?_, ?_, ?_⟩
  · intro hg
    exact ⟨(classify_eq_greeting _).mpr hg, process_message_seen_greet env m sid msg hseen hg⟩
  · intro hc
    obtain ⟨hg, ht⟩ := (classify_eq_timeQuery _).mp hc
    exact process_message_seen_td env m sid msg _ hseen hg (handle_time_date_time env _ ht)
  · intro hc
    obtain ⟨hg, _, hd⟩ := (classify_eq_dateQuery _).mp hc
    exact process_message_seen_td env m sid msg _ hseen hg (handle_time_date_date env _ hd)
  · intro hc r m2 h
    obtain ⟨hg, ht, hd⟩ := (classify_eq_retrieval _).mp hc
    have htd := handle_time_date_none env _ ht hd
    rcases process_message_branches env m sid msg hseen r m2 h with
      ⟨hg', _, _⟩ | ⟨_, td, htd', _, _⟩ | ⟨_, _, ⟨a, hr, _⟩ | ⟨a, hr, _⟩⟩
    · exact absurd hg' hg
    · rw [htd] at htd'; exact absurd htd' (by simp)
    · rw [hr]
      exact ⟨fun hc => Reply.noConfusion hc, fun hc => Reply.noConfusion hc,
        fun s hc => Reply.noConfusion hc⟩
    · rw [hr]
      exact ⟨fun hc => Reply.noConfusion hc, fun hc => Reply.noConfusion hc,
        fun s hc => Reply.noConfusion hc⟩
  · decide

/-- Concrete instantiation of `classification_exclusive_priority`. -/
theorem classification_exclusive_priority_witness :
    lookupMem memSeen "s1" ≠ none ∧
    (pyStrip (pyLower "Hello") ∈ greetTokens →
      classify (pyStrip (pyLower "Hello")) = .greeting ∧
      process_message envEmptyCorpus memSeen "s1" "Hello" = .ok (.greeting, memSeen)) ∧
    classify (pyStrip (pyLower "hello, what are LPU fees")) = .retrieval :=
  ⟨by decide,
    (classification_exclusive_priority envEmptyCorpus memSeen "s1" "Hello" (by decide)).2.1,
    (classification_exclusive_priority envEmptyCorpus memSeen "s1" "Hello" (by decide)).2.2.2.2.2⟩

/-- C2 counterexample: "hello, what are LPU fees" starts with the greeting
token "hello" but is not answered with the fixed greeting reply; the seen
session routes it through retrieval and (the corpus being empty) the general
generation fallback. -/
theorem greeting_priority_counterexample :
    process_message envEmptyCorpus memSeen "s1" "hello, what are LPU fees" =
      .ok (.general "GENERAL: hello, what are LPU fees",
        [("s1", [{ role := "assistant", content := welcome_message },
                 { role := "user", content := "hello, what are LPU fees" },
                 { role := "assistant", content := "GENERAL: hello, what are LPU fees" }])]) ∧
    Reply.general "GENERAL: hello, what are LPU fees" ≠ Reply.greeting := by
  exact ⟨by decide, by decide⟩

/-! ## C4: time queries -/

/-- C4 amended: only the exact lower-cased trimmed texts "time" and
"time now" are answered with the locally computed IST time string (and never
delegated to generation); any other message containing the word "time" falls
through to the retrieval pipeline. -/
theorem time_exact_local (env : Env) (m : Mem) (sid msg : String)
    (hseen : lookupMem m sid ≠ none)
    (h : pyStrip (pyLower msg) = "time" ∨ pyStrip (pyLower msg) = "time now") :
    process_message env m sid msg =
      .ok (.timeDate ("⏰ " ++ env.nowTime ++ " (IST)"), m) := by
  have hg : pyStrip (pyLower msg) ∉ greetTokens := by
    rcases h with h | h <;> rw [h] <;> decide
  exact process_message_seen_td env m sid msg _ hseen hg (handle_time_date_time env _ h)

/-- Concrete instantiation of `time_exact_local` at the message "Time". -/
theorem time_exact_local_witness :
    (lookupMem memSeen "s1" ≠ none ∧ pyStrip (pyLower "Time") = "time") ∧
    process_message envEmptyCorpus memSeen "s1" "Time" =
      .ok (.timeDate ("⏰ " ++ envEmptyCorpus.nowTime ++ " (IST)"), memSeen) :=
  ⟨⟨by decide, by decide⟩,
    time_exact_local envEmptyCorpus memSeen "s1" "Time" (by decide) (Or.inl (by decide))⟩

/-- C4 counterexample: "what time is it" contains the token "time" and not
"date" but is not answered by the time handler: it is delegated to the
general generation service. -/
theorem time_token_counterexample :
    "time" ∈ pywords (pyStrip (pyLower "what time is it")) ∧
    "date" ∉ pywords (pyStrip (pyLower "what time is it")) ∧
    process_message envEmptyCorpus memSeen "s1" "what time is it" =
      .ok (.general "GENERAL: what time is it",
        [("s1", [{ role := "assistant", content := welcome_message },
                 { role := "user", content := "what time is it" },
                 { role := "assistant", content := "GENERAL: what time is it" }])]) ∧
    Reply.general "GENERAL: what time is it" ≠
      Reply.timeDate ("⏰ " ++ envEmptyCorpus.nowTime ++ " (IST)") := by
  exact ⟨by decide, by decide, by decide, by decide⟩

/-! ## C1: empty retrieval falls back to general generation, not a decline -/

/-- C1 amended: the pipeline has no decline branch: a message that reaches
the retrieval step and obtains an empty retrieval result — in particular a
domain query over an empty corpus — is answered by the general-knowledge
generation service (`gemini_general`). -/
theorem empty_retrieval_general_fallback (env : Env) (m : Mem) (sid msg : String)
    (adocs sdocs : List Doc)
    (hseen : lookupMem m sid ≠ none)
    (hg : pyStrip (pyLower msg) ∉ greetTokens)
    (htd : handle_time_date env (pyStrip (pyLower msg)) = none)
    (hadmin : load_admin_documents env = .ok adocs)
    (hstatic : load_static_documents env = .ok sdocs)
    (hsearch : semantic_search env msg (adocs ++ sdocs) = .ok []) :
    process_message env m sid msg =
      .ok (.general (env.genGeneral msg),
        update_memory (update_memory m sid "user" msg) sid "assistant"
          (env.genGeneral msg)) := by
  rw [process_message, if_neg (by simp [Option.isNone_iff_eq_none, hseen]), if_neg hg, htd,
    hadmin, hstatic]
  simp [hsearch]

/-- Concrete instantiation of `empty_retrieval_general_fallback` at the
domain query "what are lpu fees" over the empty corpus. -/
theorem empty_retrieval_general_fallback_witness :
    (lookupMem memSeen "s1" ≠ none ∧
     pyStrip (pyLower "what are lpu fees") ∉ greetTokens ∧
     handle_time_date envEmptyCorpus (pyStrip (pyLower "what are lpu fees")) = none ∧
     load_admin_documents envEmptyCorpus = .ok [] ∧
     load_static_documents envEmptyCorpus = .ok [] ∧
     semantic_search envEmptyCorpus "what are lpu fees" ([] ++ []) = .ok []) ∧
    process_message envEmptyCorpus memSeen "s1" "what are lpu fees" =
      .ok (.general (envEmptyCorpus.genGeneral "what are lpu fees"),
        update_memory (update_memory memSeen "s1" "user" "what are lpu fees") "s1"
          "assistant" (envEmptyCorpus.genGeneral "what are lpu fees")) :=
  ⟨⟨by decide, by decide, by decide, by decide, by decide, by decide⟩,
    empty_retrieval_general_fallback envEmptyCorpus memSeen "s1" "what are lpu fees"
      [] [] (by decide) (by decide) (by decide) (by decide) (by decide) (by decide)⟩

/-- C1 counterexample: with an empty static corpus and no administrative
documents, the domain query "what are lpu fees" gets an empty retrieval
result, and the reply is the output of the general-knowledge generation
service — not a decline or insufficient-information response. -/
theorem strict_decline_counterexample :
    envEmptyCorpus.static_lpu = "" ∧
    "lpu" ∈ pywords (pyStrip (pyLower "what are lpu fees")) ∧
    semantic_search envEmptyCorpus "what are lpu fees" [] = .ok [] ∧
    process_message envEmptyCorpus memSeen "s1" "what are lpu fees" =
      .ok (.general "GENERAL: what are lpu fees",
        [("s1", [{ role := "assistant", content := welcome_message },
                 { role := "user", content := "what are lpu fees" },
                 { role := "assistant", content := "GENERAL: what are lpu fees" }])]) := by
  exact ⟨by decide, by decide, by decide, by decide⟩

/-! ## C3: a query-embedding failure propagates -/

/-- C3 amended: if embedding the query fails, `semantic_search` does not
return an empty result: the `EmbeddingUnavailable` error propagates to the
caller (there is no exception handler), aborting the request. -/
theorem embed_failure_propagates (env : Env) (q : String) (docs : List Doc)
    (k : Nat) (θ : ℚ) (h : env.embed q = none) :
    semantic_search env q docs k θ = .error .embeddingUnavailable := by
  simp [semantic_search, embed_text, h]

/-- Concrete instantiation of `embed_failure_propagates`. -/
theorem embed_failure_propagates_witness :
    envNoEmbed.embed "query" = none ∧
    semantic_search envNoEmbed "query" [] 4 (35/100) = .error .embeddingUnavailable :=
  ⟨rfl, embed_failure_propagates envNoEmbed "query" [] 4 (35/100) rfl⟩

/-- C3 counterexample: with the embedding service down, `semantic_search`
returns the propagated error rather than the empty result, and the whole
`process_message` call aborts with that error. -/
theorem embed_failure_counterexample :
    semantic_search envNoEmbed "query"
      [{ source := "Admin Dashboard", title := "t", text := "x", embedding := [1] }]
      4 (35/100) = .error .embeddingUnavailable ∧
    semantic_search envNoEmbed "query"
      [{ source := "Admin Dashboard", title := "t", text := "x", embedding := [1] }]
      4 (35/100) ≠ .ok [] ∧
    process_message envNoEmbed memSeen "s1" "what are lpu fees" =
      .error .embeddingUnavailable := by
  exact ⟨by decide, by decide, by decide⟩

/-! ## C8: retrieval filtering, ranking, stability and top-k bound -/

instance : IsTotal (ℚ × Doc) scoreGE := ⟨fun a b => le_total b.1 a.1⟩

instance : IsTrans (ℚ × Doc) scoreGE := ⟨fun _ _ _ h1 h2 => le_trans h2 h1⟩

/-- The similarity score `cosine_similarity(query_vec, doc.embedding)` of a
document for an embedded query. -/
def docScore (env : Env) (qv : Vec) (d : Doc) : ℚ := env.sim qv d.embedding

/-- The documents whose score meets the threshold, in corpus order. -/
def passing (env : Env) (qv : Vec) (docs : List Doc) (θ : ℚ) : List Doc :=
  docs.filter (fun d => θ ≤ docScore env qv d)

theorem scored_eq_map_passing (env : Env) (qv : Vec) (docs : List Doc) (θ : ℚ) :
    (docs.filterMap (fun doc =>
      if θ ≤ env.sim qv doc.embedding then some (env.sim qv doc.embedding, doc) else none)) =
    (passing env qv docs θ).map (fun d => (docScore env qv d, d)) := by
  induction docs with
  | nil => rfl
  | cons d ds ih =>
    by_cases h : θ ≤ env.sim qv d.embedding
    · simp [List.filterMap_cons, passing, List.filter_cons, docScore, h] at ih ⊢
      exact ih
    · simp [List.filterMap_cons, passing, List.filter_cons, docScore, h] at ih ⊢
      exact ih

/-- Successful search, rewritten over the passing list. -/
theorem semantic_search_ok (env : Env) (q : String) (docs : List Doc) (k : Nat)
    (θ : ℚ) (qv : Vec) (hq : env.embed q = some qv) :
    semantic_search env q docs k θ =
      .ok (((((passing env qv docs θ).map (fun d => (docScore env qv d, d))).insertionSort
        scoreGE).take k).map (·.2)) := by
  simp only [semantic_search, embed_text, hq]
  rw [scored_eq_map_passing]

theorem mem_passing_pair (env : Env) (qv : Vec) (docs : List Doc) (θ : ℚ) {p : ℚ × Doc}
    (hp : p ∈ (passing env qv docs θ).map (fun d => (docScore env qv d, d))) :
    p.1 = docScore env qv p.2 ∧ θ ≤ docScore env qv p.2 ∧ p.2 ∈ docs := by
  obtain ⟨d, hd, rfl⟩ := List.mem_map.mp hp
  obtain ⟨hdm, hdp⟩ := List.mem_filter.mp hd
  exact ⟨rfl, by simpa using hdp, hdm⟩

/-- C8: for a successfully embedded query the retrieval result (i) has at
most `top_k` entries, (ii) contains only documents whose score meets the
threshold, (iii) is sorted descending by score, (iv) keeps documents of equal
score in their original corpus order (administrative chunks precede static
chunks and ingestion order is preserved, because the corpus list is built in
that order), and (v) is exactly the set of passing documents whenever at most
`top_k` documents pass. -/
theorem semantic_search_spec (env : Env) (q : String) (docs : List Doc) (k : Nat)
    (θ : ℚ) (qv : Vec) (r : List Doc)
    (hq : env.embed q = some qv)
    (hr : semantic_search env q docs k θ = .ok r) :
    r.length ≤ k ∧
    (∀ d ∈ r, θ ≤ docScore env qv d) ∧
    r.Pairwise (fun a b => docScore env qv b ≤ docScore env qv a) ∧
    (∀ s : ℚ, (r.filter (fun d => docScore env qv d = s)).Sublist
      (docs.filter (fun d => docScore env qv d = s))) ∧
    ((passing env qv docs θ).length ≤ k → r.Perm (passing env qv docs θ)) := by
  rw [semantic_search_ok env q docs k θ qv hq] at hr
  simp only [Except.ok.injEq] at hr
  subst hr
  set L := (passing env qv docs θ).map (fun d => (docScore env qv d, d)) with hLdef
  set S := L.insertionSort scoreGE with hSdef
  have hperm : S.Perm L := List.perm_insertionSort scoreGE L
  have hmemS : ∀ p ∈ S, p.1 = docScore env qv p.2 ∧ θ ≤ docScore env qv p.2 ∧ p.2 ∈ docs :=
    fun p hp => mem_passing_pair env qv docs θ (hperm.mem_iff.mp hp)
  have hsorted : S.Pairwise scoreGE := List.sorted_insertionSort scoreGE L
  have htake : (S.take k).Sublist S := List.take_sublist k S
  refine ⟨?_, ?_, ?_, ?_, ?_⟩
  · rw [List.length_map, List.length_take]
    omega
  · intro d hd
    obtain ⟨p, hp, rfl⟩ := List.mem_map.mp hd
    exact (hmemS p (List.mem_of_mem_take hp)).2.1
  · rw [List.pairwise_map]
    refine List.Pairwise.imp_of_mem ?_ (List.Pairwise.sublist htake hsorted)
    intro a b ha hb hab
    have hfa := (hmemS a (List.mem_of_mem_take ha)).1
    have hfb := (hmemS b (List.mem_of_mem_take hb)).1
    rw [scoreGE, hfa, hfb] at hab
    exact hab
  · intro s
    have heqs_pair : ∀ p ∈ S, (decide (docScore env qv p.2 = s)) = decide (p.1 = s) := by
      intro p hp
      rw [(hmemS p hp).1]
    -- the equal-score block of the scored list, in corpus order
    have heqfix : L.filter (fun p => p.1 = s) =
        (L.filter (fun p => p.1 = s)).filter (fun p => p.1 = s) := by
      rw [List.filter_filter]
      apply (List.filter_congr ?_).symm
      intro p hp
      by_cases h : p.1 = s <;> simp [h]
    have heqpair : (L.filter (fun p => p.1 = s)).Pairwise scoreGE := by
      apply List.pairwise_of_forall_mem_list
      intro a ha b hb
      have ha' := of_decide_eq_true (List.mem_filter.mp ha).2
      have hb' := of_decide_eq_true (List.mem_filter.mp hb).2
      rw [scoreGE, ha', hb']
    have hstab : (L.filter (fun p => p.1 = s)).Sublist S :=
      List.sublist_insertionSort heqpair (List.filter_sublist L)
    have hSfilter : S.filter (fun p => p.1 = s) = L.filter (fun p => p.1 = s) := by
      have h1 : (L.filter (fun p => p.1 = s)).Sublist (S.filter (fun p => p.1 = s)) := by
        rw [heqfix]
        exact List.Sublist.filter _ hstab
      have h2 : (S.filter (fun p => p.1 = s)).Perm (L.filter (fun p => p.1 = s)) :=
        hperm.filter _
      exact (h1.eq_of_length h2.length_eq.symm).symm
    -- move from documents back to scored pairs
    rw [List.filter_map]
    have hswitch : (S.take k).filter ((fun d => decide (docScore env qv d = s)) ∘ (·.2)) =
        (S.take k).filter (fun p => p.1 = s) := by
      apply List.filter_congr
      intro p hp
      exact heqs_pair p (List.mem_of_mem_take hp)
    rw [hswitch]
    have hsub1 : ((S.take k).filter (fun p => p.1 = s)).Sublist
        (L.filter (fun p => p.1 = s)) := by
      rw [← hSfilter]
      exact List.Sublist.filter _ htake
    have hL : L.filter (fun p => p.1 = s) =
        ((passing env qv docs θ).filter (fun d => docScore env qv d = s)).map
          (fun d => (docScore env qv d, d)) := by
      rw [hLdef, List.filter_map]
      apply congrArg
      apply List.filter_congr
      intro d _
      simp
    have hpass : ((passing env qv docs θ).filter (fun d => docScore env qv d = s)).Sublist
        (docs.filter (fun d => docScore env qv d = s)) := by
      rw [passing, List.filter_filter]
      apply List.monotone_filter_right
      intro d hd
      simp only [Bool.and_eq_true, decide_eq_true_eq] at hd ⊢
      exact hd.1
    have hmap : ((L.filter (fun p => p.1 = s)).map (·.2)) =
        (passing env qv docs θ).filter (fun d => docScore env qv d = s) := by
      rw [hL, List.map_map]
      rw [show ((·.2) ∘ fun d : Doc => (docScore env qv d, d)) = id from rfl, List.map_id]
    refine List.Sublist.trans (hsub1.map (·.2)) ?_
    rw [hmap]
    exact hpass
  · intro hk
    have hlen : S.length ≤ k := by
      rw [hperm.length_eq, hLdef, List.length_map]
      exact hk
    rw [List.take_of_length_le hlen]
    have : (S.map (·.2)).Perm (L.map (·.2)) := hperm.map _
    refine this.trans ?_
    rw [hLdef, List.map_map]
    rw [show ((·.2) ∘ fun d : Doc => (docScore env qv d, d)) = id from rfl, List.map_id]

/-- A document whose single-entry embedding doubles as its score under
`envScores`. -/
def docW (t : String) (e : ℚ) : Doc :=
  { source := "Admin Dashboard", title := t, text := t, embedding := [e] }

/-- An environment whose score oracle reads the score off the document
embedding, exercising ranking concretely. -/
def envScores : Env where
  embed := fun _ => some [1]
  sim := fun _ v => v.headI
  adminRaw := []
  static_lpu := ""
  genGeneral := fun q => "GENERAL: " ++ q
  genContextual := fun q _ _ => "CONTEXT: " ++ q
  nowTime := "10:05 AM"
  nowDate := "12 October 2026"

/-- A corpus with scores 1/2, 1/4, 9/10, 1/2: one below the threshold and a
tie between the first and last document. -/
def docsW : List Doc :=
  [docW "d1" (mkRat 1 2), docW "d2" (mkRat 1 4), docW "d3" (mkRat 9 10), docW "d4" (mkRat 1 2)]

/-- The retrieval result on `docsW`: the 9/10 document first, then the two
tied 1/2 documents in corpus order. -/
def resultW : List Doc := [docW "d3" (mkRat 9 10), docW "d1" (mkRat 1 2), docW "d4" (mkRat 1 2)]

/-- Concrete instantiation of `semantic_search_spec` on `docsW`. -/
theorem semantic_search_spec_witness :
    (envScores.embed "q" = some [1] ∧
     semantic_search envScores "q" docsW 4 (mkRat 35 100) = .ok resultW) ∧
    (resultW.length ≤ 4 ∧
     (∀ d ∈ resultW, mkRat 35 100 ≤ docScore envScores [1] d) ∧
     resultW.Pairwise (fun a b => docScore envScores [1] b ≤ docScore envScores [1] a) ∧
     (∀ s : ℚ, (resultW.filter (fun d => docScore envScores [1] d = s)).Sublist
       (docsW.filter (fun d => docScore envScores [1] d = s))) ∧
     ((passing envScores [1] docsW (mkRat 35 100)).length ≤ 4 →
       resultW.Perm (passing envScores [1] docsW (mkRat 35 100)))) :=
  ⟨⟨rfl, by decide⟩,
    semantic_search_spec envScores "q" docsW 4 (mkRat 35 100) [1] resultW rfl (by decide)⟩

end VertoSewa
